import Mathlib

/-!
Shallow embedding of the feed-polling service (feed poller, redis client,
subscriber broadcast) of this repository, together with proofs about the
embedded operations.  Each definition is translated from the Python source
file it names.
-/

namespace FeedService

/-- Canonical article record as built in `FeedPoller.process_feed`
(src/src/feed_poller.py).  Only the fields the claims reason about are kept:
`ident` stands for the stable identity key (the entry link) and `ts` for the
normalized timestamp, compared the way `datetime.fromisoformat(x["timestamp"])`
orders timestamps. -/
structure Article where
  ident : Nat
  ts : Nat
deriving DecidableEq, Repr

/-- Comparison used by `article_buffer.sort(key=lambda x: ..., reverse=True)`
in `process_feed` (src/src/feed_poller.py lines 265-268): article `a` may come
before `b` exactly when `a`'s timestamp is at least `b`'s (descending order;
the Python sort is stable and ties are allowed). -/
def tsDesc (a b : Article) : Bool := b.ts ≤ a.ts

/-- One buffer update of `FeedPoller.process_feed` (src/src/feed_poller.py
lines 262-269): extend the buffer with the newly accepted articles, sort by
normalized timestamp descending, keep the first `B = ARTICLES_BUFFER_SIZE`
entries (`self.article_buffer[:ARTICLES_BUFFER_SIZE]`). -/
def updateBuffer (B : Nat) (buf newArticles : List Article) : List Article :=
  ((buf ++ newArticles).mergeSort tsDesc).take B

theorem tsDesc_trans (a b c : Article) (hab : tsDesc a b) (hbc : tsDesc b c) :
    tsDesc a c := by
  simp only [tsDesc, decide_eq_true_eq] at *
  omega

theorem tsDesc_total (a b : Article) : tsDesc a b || tsDesc b a := by
  simp only [tsDesc, Bool.or_eq_true, decide_eq_true_eq]
  omega

/-- C1: after each `process_feed` buffer update the buffer is sorted by
normalized timestamp descending, its length never exceeds the configured
capacity `B`, and every entry dropped by the cap is no more recent than any
entry kept: the oldest entries are dropped, never the newest. -/
theorem buffer_sorted_capped_drops_oldest (B : Nat) (buf newArticles : List Article) :
    (updateBuffer B buf newArticles).Pairwise (fun a b => b.ts ≤ a.ts) ∧
    (updateBuffer B buf newArticles).length ≤ B ∧
    ∀ x ∈ ((buf ++ newArticles).mergeSort tsDesc).drop B,
      ∀ y ∈ updateBuffer B buf newArticles, x.ts ≤ y.ts := by
  have hsorted : ((buf ++ newArticles).mergeSort tsDesc).Pairwise
      (fun a b => tsDesc a b) :=
    List.sorted_mergeSort tsDesc_trans tsDesc_total (buf ++ newArticles)
  have hsorted' : ((buf ++ newArticles).mergeSort tsDesc).Pairwise
      (fun a b => b.ts ≤ a.ts) := by
    refine hsorted.imp ?_
    intro a b h
    simp [tsDesc] at h
    exact h
  refine ⟨?_, ?_, ?_⟩
  · exact hsorted'.sublist (List.take_sublist _ _)
  · simp only [updateBuffer]
    exact List.length_take_le B _
  · intro x hx y hy
    have hsplit := List.take_append_drop B ((buf ++ newArticles).mergeSort tsDesc)
    have hpair : (((buf ++ newArticles).mergeSort tsDesc).take B ++
        ((buf ++ newArticles).mergeSort tsDesc).drop B).Pairwise
        (fun a b => b.ts ≤ a.ts) := by
      rw [hsplit]; exact hsorted'
    have := (List.pairwise_append.mp hpair).2.2
    exact this y hy x hx

/-- Default `ARTICLES_BUFFER_SIZE` (src/src/config.py line 120). -/
def ARTICLES_BUFFER_SIZE : Nat := 15

/-- Mutable state of `FeedPoller` (src/src/feed_poller.py lines 25-30): the
article buffer and the readiness flag. -/
structure PollerState where
  article_buffer : List Article
  is_ready : Bool
deriving DecidableEq, Repr

/-- `FeedPoller.initialize_buffer` (src/src/feed_poller.py lines 131-148):
`existing` is the list returned by `redis_client.get_recent_articles`; when it
is non-empty the buffer becomes that list and `is_ready` is set to `True`
(regardless of how many articles were restored); when it is empty, or the read
raises, the buffer becomes `[]` and the readiness flag is left unchanged. -/
def initializeBuffer (s : PollerState) (existing : List Article) : PollerState :=
  if existing.isEmpty then { s with article_buffer := [] }
  else { article_buffer := existing, is_ready := true }

/-- The buffer-and-readiness update at the end of `FeedPoller.process_feed`
(src/src/feed_poller.py lines 262-275): executed only when `new_articles` is
non-empty; readiness is set once the updated buffer has reached
`ARTICLES_BUFFER_SIZE` and is never unset
(`if len(self.article_buffer) >= ARTICLES_BUFFER_SIZE and not self.is_ready`).
-/
def processFeedUpdate (B : Nat) (s : PollerState) (newArticles : List Article) :
    PollerState :=
  if newArticles.isEmpty then s
  else
    let buf := updateBuffer B s.article_buffer newArticles
    { article_buffer := buf,
      is_ready := s.is_ready || decide (B ≤ buf.length) }

/-- C3 counterexample: restoring a single article from the Store at startup
(`initialize_buffer` with a non-empty `get_recent_articles` result) sets
`is_ready = True` even though the buffer holds 1 < `ARTICLES_BUFFER_SIZE` = 15
articles, so the readiness flag is not equivalent to
`len(article_buffer) >= ARTICLES_BUFFER_SIZE`. -/
theorem readiness_true_below_target_after_restore :
    (initializeBuffer ⟨[], false⟩ [⟨0, 0⟩]).is_ready = true ∧
    ¬ ARTICLES_BUFFER_SIZE ≤
        (initializeBuffer ⟨[], false⟩ [⟨0, 0⟩]).article_buffer.length := by
  decide

/-- C3 amended: a `process_feed` buffer update sets the readiness flag
whenever it brings the buffer length to at least `B`, and never unsets a set
flag; but `initialize_buffer` sets the flag whenever it restores a non-empty
article list from the Store, even one with fewer than `B` items, so readiness
is not equivalent to `len() >= B`. -/
theorem readiness_set_by_update_and_any_restore (B : Nat) (s : PollerState)
    (l : List Article) (hne : l.isEmpty = false) :
    (B ≤ (processFeedUpdate B s l).article_buffer.length →
      (processFeedUpdate B s l).is_ready = true) ∧
    (s.is_ready = true → (processFeedUpdate B s l).is_ready = true) ∧
    (initializeBuffer s l).is_ready = true := by
  have hl : l ≠ [] := by simpa using hne
  refine ⟨?_, ?_, ?_⟩
  · intro hlen
    simp [processFeedUpdate, hl] at hlen ⊢
    exact Or.inr hlen
  · intro hready
    simp [processFeedUpdate, hl, hready]
  · simp [initializeBuffer, hne]

/-- Witness for `readiness_set_by_update_and_any_restore` at a concrete
input. -/
theorem readiness_set_by_update_and_any_restore_witness :
    (processFeedUpdate 1 ⟨[], false⟩ [⟨0, 0⟩]).is_ready = true ∧
    (initializeBuffer ⟨[], false⟩ [⟨0, 0⟩]).is_ready = true :=
  ⟨(readiness_set_by_update_and_any_restore 1 ⟨[], false⟩ [⟨0, 0⟩]
      (by decide)).1 (by simp [processFeedUpdate, updateBuffer]),
   (readiness_set_by_update_and_any_restore 1 ⟨[], false⟩ [⟨0, 0⟩]
      (by decide)).2.2⟩

/-- Result of the per-entry admission test of `FeedPoller.process_feed`:
whether the entry is admitted (not skipped) and whether the Store existence
check was actually performed. -/
structure EntryDecision where
  admitted : Bool
  storeQueried : Bool
deriving DecidableEq, Repr

/-- The admission test of `FeedPoller.process_feed` for one feed entry
(src/src/feed_poller.py lines 234-239):
`if len(self.article_buffer) >= ARTICLES_BUFFER_SIZE and await
self.redis_client.is_article_exists(article_link): continue`.
The Python `and` short-circuits, so the Store is queried only when the buffer
is already at capacity. -/
def entryDecision (bufLen B : Nat) (existsInStore : Bool) : EntryDecision :=
  if B ≤ bufLen then { admitted := !existsInStore, storeQueried := true }
  else { admitted := true, storeQueried := false }

/-- C2 counterexample: during initial fill (buffer length 0 < 15) an entry
whose identity is already in the Store is admitted and the Store is never
consulted, refuting the "always check" default. -/
theorem store_not_consulted_during_fill :
    (entryDecision 0 ARTICLES_BUFFER_SIZE true).storeQueried = false ∧
    (entryDecision 0 ARTICLES_BUFFER_SIZE true).admitted = true := by
  decide

/-- C2 amended: the Store existence check is performed only once the buffer
is at its target size, and then an entry that exists in the Store is skipped;
while the buffer is below target every entry is admitted without consulting
the Store. -/
theorem store_checked_only_at_capacity (n B : Nat) (ex : Bool) :
    (n < B → entryDecision n B ex = ⟨true, false⟩) ∧
    (B ≤ n → entryDecision n B ex = ⟨!ex, true⟩) := by
  constructor
  · intro h
    simp [entryDecision, Nat.not_le.mpr h]
  · intro h
    simp [entryDecision, h]

/-- Witness for `store_checked_only_at_capacity` at concrete inputs. -/
theorem store_checked_only_at_capacity_witness :
    entryDecision 0 15 true = ⟨true, false⟩ ∧ entryDecision 15 15 true = ⟨false, true⟩ :=
  ⟨(store_checked_only_at_capacity 0 15 true).1 (by decide),
   by
    have h := (store_checked_only_at_capacity 15 15 true).2 (by decide)
    simpa using h⟩

/-- `INITIAL_RETRY_DELAY` (src/src/config.py line 116; the same constant in
src/rss_poller.py line 46). -/
def INITIAL_RETRY_DELAY : Nat := 5

/-- `MAX_RETRY_DELAY` (src/src/config.py line 117; the same constant in
src/rss_poller.py line 47).  `feed_poller.py` imports it but never uses it. -/
def MAX_RETRY_DELAY : Nat := 300

/-- Retry delay of `FeedPoller.fetch_feed` (src/src/feed_poller.py lines 62
and 93-129) after `n` consecutive failed attempts for one source: `delay`
starts at `INITIAL_RETRY_DELAY` and the `while True` loop runs
`await asyncio.sleep(delay); delay *= 2` on every failure, with no cap and no
exit on failure, so the source is retried indefinitely within the same call. -/
def fpDelay : Nat → Nat
  | 0 => INITIAL_RETRY_DELAY
  | n + 1 => fpDelay n * 2

/-- One failure step of `RSSPoller.fetch_feed` (src/rss_poller.py lines
171-179): when the current delay exceeds `MAX_RETRY_DELAY` the function
returns, giving the source up for the current cycle (`none`); otherwise it
sleeps for `delay` and doubles it (`some (sleptFor, nextDelay)`).  The next
top-level polling pass calls `fetch_feed` afresh, with the delay reset to
`INITIAL_RETRY_DELAY` (line 126), so the source is never permanently
abandoned. -/
def rssStep (delay : Nat) : Option (Nat × Nat) :=
  if MAX_RETRY_DELAY < delay then none else some (delay, delay * 2)

/-- C5 counterexample: in `FeedPoller.fetch_feed` the retry delay after 7
consecutive failures is 5 * 2^7 = 640 seconds, which exceeds
`MAX_RETRY_DELAY` = 300: the delay is not capped at the configured maximum. -/
theorem fp_delay_exceeds_cap : fpDelay 7 = 640 ∧ ¬ fpDelay 7 ≤ MAX_RETRY_DELAY := by
  decide

/-- C5 amended: in `FeedPoller.fetch_feed` the delay after `n` consecutive
failures is exactly `INITIAL_RETRY_DELAY * 2 ^ n`, unbounded (the loop never
gives a source up); in `RSSPoller.fetch_feed` a failure step with the delay
over `MAX_RETRY_DELAY` gives the source up for the current cycle, and
otherwise the performed sleep never exceeds `MAX_RETRY_DELAY` and the delay
doubles; every new cycle restarts from `INITIAL_RETRY_DELAY`. -/
theorem backoff_doubles_rss_caps (n d : Nat) :
    fpDelay n = INITIAL_RETRY_DELAY * 2 ^ n ∧
    fpDelay 0 = INITIAL_RETRY_DELAY ∧
    (rssStep d = none ↔ MAX_RETRY_DELAY < d) ∧
    (d ≤ MAX_RETRY_DELAY → rssStep d = some (d, d * 2) ∧ d ≤ MAX_RETRY_DELAY) := by
  refine ⟨?_, rfl, ?_, ?_⟩
  · induction n with
    | zero => simp [fpDelay]
    | succ k ih => simp [fpDelay, ih, Nat.pow_succ, Nat.mul_assoc]
  · constructor
    · intro h
      by_contra hc
      simp [rssStep, hc] at h
    · intro h
      simp [rssStep, h]
  · intro h
    have h2 : ¬ MAX_RETRY_DELAY < d := Nat.not_lt.mpr h
    simp [rssStep, h2, h]

/-- Witness for `backoff_doubles_rss_caps` at concrete inputs. -/
theorem backoff_doubles_rss_caps_witness :
    fpDelay 7 = INITIAL_RETRY_DELAY * 2 ^ 7 ∧
    rssStep 160 = some (160, 160 * 2) ∧ rssStep 320 = none :=
  ⟨(backoff_doubles_rss_caps 7 160).1,
   ((backoff_doubles_rss_caps 7 160).2.2.2 (by decide)).1,
   (backoff_doubles_rss_caps 7 320).2.2.1.mpr (by decide)⟩

/-- Payload sent to the connected clients: `process_feed` sends
`{"articles": [...]}`; the message is modelled by its article list. -/
abbrev Msg := List Article

/-- One connected client of src/src/main.py: a `Client` holds a delivery
queue; `putFails` models `client.queue.put(data)` raising for this client,
the failure the `except` branch of `send_to_clients` guards against. -/
structure ClientSt where
  queue : List Msg
  putFails : Bool
deriving DecidableEq, Repr

/-- A successful `client.queue.put(data)`. -/
def enqueue (data : Msg) (c : ClientSt) : ClientSt :=
  { c with queue := c.queue ++ [data] }

/-- The delivery loop of `send_to_clients` (src/src/main.py lines 41-47):
`queue.put` is attempted for every registered client in turn; a client whose
put raises keeps its queue and its id is appended to `disconnected`; the loop
continues with the remaining clients.  Returns the registry after the put
attempts together with the collected `disconnected` ids. -/
def putAttempts (data : Msg) : List (Nat × ClientSt) → List (Nat × ClientSt) × List Nat
  | [] => ([], [])
  | (i, c) :: rest =>
    let r := putAttempts data rest
    if c.putFails then ((i, c) :: r.1, i :: r.2)
    else ((i, enqueue data c) :: r.1, r.2)

/-- `send_to_clients` (src/src/main.py lines 39-51): after the delivery loop
every collected disconnected id is popped from the client registry. -/
def sendToClients (data : Msg) (clients : List (Nat × ClientSt)) :
    List (Nat × ClientSt) :=
  let r := putAttempts data clients
  r.1.filter (fun p => !(r.2.contains p.1))

theorem putAttempts_fst (data : Msg) (cs : List (Nat × ClientSt)) :
    (putAttempts data cs).1 =
      cs.map (fun p => if p.2.putFails then p else (p.1, enqueue data p.2)) := by
  induction cs with
  | nil => rfl
  | cons hd tl ih =>
    obtain ⟨i, c⟩ := hd
    by_cases h : c.putFails <;> simp [putAttempts, h, ih]

theorem putAttempts_snd (data : Msg) (cs : List (Nat × ClientSt)) :
    (putAttempts data cs).2 =
      (cs.filter (fun p => p.2.putFails)).map Prod.fst := by
  induction cs with
  | nil => rfl
  | cons hd tl ih =>
    obtain ⟨i, c⟩ := hd
    by_cases h : c.putFails <;> simp [putAttempts, h, ih]

theorem value_unique_of_nodup_keys {l : List (Nat × ClientSt)}
    (h : (l.map Prod.fst).Nodup) {i : Nat} {c d : ClientSt}
    (h1 : (i, c) ∈ l) (h2 : (i, d) ∈ l) : c = d := by
  induction l with
  | nil => cases h1
  | cons hd tl ih =>
    obtain ⟨j, e⟩ := hd
    simp only [List.map_cons, List.nodup_cons] at h
    rcases List.mem_cons.mp h1 with he1 | ht1 <;>
      rcases List.mem_cons.mp h2 with he2 | ht2
    · exact congrArg Prod.snd (he1.trans he2.symm)
    · exfalso
      injection he1 with hij _
      apply h.1
      rw [← hij]
      exact (by simpa using List.mem_map_of_mem Prod.fst ht2)
    · exfalso
      injection he2 with hij _
      apply h.1
      rw [← hij]
      exact (by simpa using List.mem_map_of_mem Prod.fst ht1)
    · exact ih h.2 ht1 ht2

theorem mem_sendToClients_of_ok (data : Msg) (clients : List (Nat × ClientSt))
    (hkeys : (clients.map Prod.fst).Nodup) (i : Nat) (c : ClientSt)
    (hmem : (i, c) ∈ clients) (hok : c.putFails = false) :
    (i, enqueue data c) ∈ sendToClients data clients := by
  unfold sendToClients
  apply List.mem_filter.mpr
  constructor
  · rw [putAttempts_fst]
    have : (fun p : Nat × ClientSt =>
        if p.2.putFails then p else (p.1, enqueue data p.2)) (i, c)
        = (i, enqueue data c) := by simp [hok]
    rw [← this]
    exact List.mem_map_of_mem _ hmem
  · rw [putAttempts_snd]
    simp only [Bool.not_eq_true']
    rw [List.contains_eq_any_beq]
    simp only [List.any_eq_false, beq_iff_eq]
    intro j hj hji
    subst hji
    simp only [List.mem_map, List.mem_filter] at hj
    obtain ⟨⟨j2, d⟩, ⟨hd1, hd2⟩, hd3⟩ := hj
    have hj2 : j2 = (i, enqueue data c).1 := hd3
    simp only [] at hj2
    subst hj2
    have hcd := value_unique_of_nodup_keys hkeys hmem hd1
    rw [← hcd] at hd2
    simp [hok] at hd2

theorem not_mem_sendToClients_of_fails (data : Msg)
    (clients : List (Nat × ClientSt)) (i : Nat) (c : ClientSt)
    (hmem : (i, c) ∈ clients) (hfail : c.putFails = true) (d : ClientSt) :
    (i, d) ∉ sendToClients data clients := by
  unfold sendToClients
  intro hcontra
  have h := List.mem_filter.mp hcontra
  have hin : i ∈ (putAttempts data clients).2 := by
    rw [putAttempts_snd]
    have hmemf : (i, c) ∈ List.filter (fun p => p.2.putFails) clients :=
      List.mem_filter.mpr ⟨hmem, by simp [hfail]⟩
    exact (by simpa using List.mem_map_of_mem Prod.fst hmemf)
  have := h.2
  simp only [Bool.not_eq_true'] at this
  rw [List.contains_eq_any_beq] at this
  simp only [List.any_eq_false, beq_iff_eq] at this
  exact this i hin rfl

/-- C7: when the poller publishes a message, every registered subscriber
whose `queue.put` succeeds receives it and stays registered, while a
subscriber whose delivery fails is unregistered (and only that subscriber);
the failure is caught inside `send_to_clients` and does not abort delivery to
the rest. -/
theorem publish_failure_isolated (data : Msg) (clients : List (Nat × ClientSt))
    (hkeys : (clients.map Prod.fst).Nodup) (i : Nat) (c : ClientSt)
    (hmem : (i, c) ∈ clients) :
    (c.putFails = false → (i, enqueue data c) ∈ sendToClients data clients) ∧
    (c.putFails = true → ∀ d : ClientSt, (i, d) ∉ sendToClients data clients) :=
  ⟨fun hok => mem_sendToClients_of_ok data clients hkeys i c hmem hok,
   fun hfail d => not_mem_sendToClients_of_fails data clients i c hmem hfail d⟩

/-- Witness for `publish_failure_isolated`: three subscribers, the middle one
failing; the first subscriber still receives the message and the failing one
is unregistered. -/
theorem publish_failure_isolated_witness :
    (0, enqueue [⟨0, 1⟩] ⟨[], false⟩) ∈
      sendToClients [⟨0, 1⟩]
        [(0, ⟨[], false⟩), (1, ⟨[], true⟩), (2, ⟨[], false⟩)] ∧
    (1, ClientSt.mk [] true) ∉
      sendToClients [⟨0, 1⟩]
        [(0, ⟨[], false⟩), (1, ⟨[], true⟩), (2, ⟨[], false⟩)] :=
  ⟨(publish_failure_isolated [⟨0, 1⟩]
      [(0, ⟨[], false⟩), (1, ⟨[], true⟩), (2, ⟨[], false⟩)]
      (by decide) 0 ⟨[], false⟩ (by decide)).1 rfl,
   (publish_failure_isolated [⟨0, 1⟩]
      [(0, ⟨[], false⟩), (1, ⟨[], true⟩), (2, ⟨[], false⟩)]
      (by decide) 1 ⟨[], true⟩ (by decide)).2 rfl ⟨[], true⟩⟩

/-- The broadcast step of `FeedPoller.process_feed` (src/src/feed_poller.py
lines 277-281): when the pass accepted articles, only `new_articles[0]` is
sent, wrapped as a one-element article list; with no new articles nothing is
sent. -/
def latestSent (newArticles : List Article) : Msg :=
  match newArticles with
  | [] => []
  | a :: _ => [a]

/-- C6 counterexample: a pass accepting two articles broadcasts only the
first one; the second accepted article is never enqueued on any subscriber
queue. -/
theorem only_first_item_broadcast :
    sendToClients (latestSent [⟨0, 5⟩, ⟨1, 9⟩]) [(0, ⟨[], false⟩)]
      = [(0, ⟨[[⟨0, 5⟩]], false⟩)] ∧
    ∀ p ∈ sendToClients (latestSent [⟨0, 5⟩, ⟨1, 9⟩]) [(0, ⟨[], false⟩)],
      ∀ m ∈ p.2.queue, Article.mk 1 9 ∉ m := by
  decide

/-- C6 amended: after a pass accepting the articles `a :: rest`, exactly the
message `[a]` (the first accepted article of the pass) is handed to
`send_to_clients`, and it is enqueued onto the queue of every registered
subscriber whose delivery succeeds; the other accepted articles of the pass
are not broadcast. -/
theorem broadcast_first_accepted (a : Article) (rest : List Article)
    (clients : List (Nat × ClientSt)) (hkeys : (clients.map Prod.fst).Nodup)
    (i : Nat) (c : ClientSt) (hmem : (i, c) ∈ clients)
    (hok : c.putFails = false) :
    latestSent (a :: rest) = [a] ∧
    (i, enqueue [a] c) ∈ sendToClients (latestSent (a :: rest)) clients :=
  ⟨rfl, mem_sendToClients_of_ok [a] clients hkeys i c hmem hok⟩

/-- Witness for `broadcast_first_accepted` at a concrete input. -/
theorem broadcast_first_accepted_witness :
    latestSent [⟨0, 5⟩, ⟨1, 9⟩] = [⟨0, 5⟩] ∧
    (0, enqueue [⟨0, 5⟩] ⟨[], false⟩) ∈
      sendToClients (latestSent [⟨0, 5⟩, ⟨1, 9⟩]) [(0, ⟨[], false⟩)] :=
  broadcast_first_accepted ⟨0, 5⟩ [⟨1, 9⟩] [(0, ⟨[], false⟩)] (by decide)
    0 ⟨[], false⟩ (by decide) (by decide)

/-- Outcome of `email.utils.parsedate_to_datetime` on one candidate string:
the ISO rendering of the parsed date and whether the parsed datetime carried
timezone information (`tzinfo is not None`). -/
structure RfcDate where
  iso : String
  hasTz : Bool

/-- The date fields `_parse_date` reads from a raw entry
(src/src/feed_poller.py line 153): `entry.get(field)` for `published`,
`pubDate`, `updated`, `created`; `none` models an absent field. -/
structure EntryDates where
  published : Option String
  pubDate : Option String
  updated : Option String
  created : Option String

/-- One candidate of `_parse_date` (src/src/feed_poller.py lines 158-175),
with the two external parsers as parameters: first the RFC-2822 parse; on
success with timezone info its ISO rendering is returned; on success without
timezone info the code runs
`parsed_date.replace(tzinfo=datetime.timezone.utc)`, which raises
`AttributeError` inside the enclosing `try` (`datetime` is the class bound by
`from datetime import datetime` and has no `timezone` attribute), so control
falls to the ISO-8601 attempt; when the RFC parse raises, the ISO attempt is
likewise tried; `none` means both attempts failed and the field loop
continues. -/
def tryDateField (rfc : String → Option RfcDate) (iso : String → Option String)
    (s : String) : Option String :=
  match rfc s with
  | some r => if r.hasTz then some r.iso else iso s
  | none => iso s

/-- The field loop of `_parse_date` (src/src/feed_poller.py lines 155-175):
`entry.get(field)` is used only when truthy, so absent fields and the empty
string are skipped; the first candidate with a successful parse wins. -/
def tryDateFields (rfc : String → Option RfcDate) (iso : String → Option String) :
    List (Option String) → Option String
  | [] => none
  | f :: rest =>
    match f with
    | none => tryDateFields rfc iso rest
    | some s =>
      if s = "" then tryDateFields rfc iso rest
      else
        match tryDateField rfc iso s with
        | some t => some t
        | none => tryDateFields rfc iso rest

/-- `_parse_date` (src/src/feed_poller.py lines 150-180).  When no field
yields a parse, the fallback line
`current_time = datetime.now(datetime.timezone.utc)` runs outside any `try`
and raises `AttributeError` (`datetime` is the class, which has no
`timezone` attribute), so instead of returning the current UTC time the
function raises; the raise is modelled by `Except.error`. -/
def parseDate (rfc : String → Option RfcDate) (iso : String → Option String)
    (e : EntryDates) : Except String String :=
  match tryDateFields rfc iso [e.published, e.pubDate, e.updated, e.created] with
  | some t => Except.ok t
  | none => Except.error ("AttributeError: datetime has no member timezone")

/-- C4: for an entry with no date field at all, `_parse_date` does not return
a synthesized current-time timestamp: whatever the external RFC-2822 and
ISO-8601 parsers do, the current-time fallback raises `AttributeError`, so
the normalizer fails instead of producing an Item. -/
theorem parse_date_raises_without_date_field
    (rfc : String → Option RfcDate) (iso : String → Option String) :
    parseDate rfc iso ⟨none, none, none, none⟩
      = Except.error ("AttributeError: datetime has no member timezone") := rfl

/-- A feedparser tag object as read by `_extract_categories`: `term` is
`some t` exactly when `hasattr(tag, 'term')`. -/
structure FeedTag where
  term : Option String
deriving DecidableEq, Repr

/-- An element of a list-valued `entry.category`: a string, an object (whose
`term` attribute may be absent), or anything else; elements that are neither
strings nor `term`-carrying objects are skipped. -/
inductive CatElem
  | str (s : String)
  | obj (term : Option String)
deriving DecidableEq, Repr

/-- The `category` attribute of an entry: absent, a single non-list value
(appended directly), or a list of elements. -/
inductive CategoryField
  | absent
  | scalar (v : String)
  | list (elems : List CatElem)
deriving DecidableEq, Repr

/-- The categories collected by the `try` block of `_extract_categories`
(src/src/feed_poller.py lines 184-203): the `tags` attribute has priority
(`if 'tags' in entry`); otherwise a list-valued `category` contributes its
string elements and the `term` of its `term`-carrying objects, and a non-list
`category` is appended directly. -/
def rawCategories (tags : Option (List FeedTag)) (category : CategoryField) :
    List String :=
  match tags with
  | some ts => ts.filterMap (fun t => t.term)
  | none =>
    match category with
    | .absent => []
    | .scalar v => [v]
    | .list es => es.filterMap (fun e =>
        match e with
        | .str s => some s
        | .obj t => t)

/-- `_extract_categories` (src/src/feed_poller.py lines 182-209): the
collected categories, with the default category appended when none were
collected ("Always ensure at least one category"). -/
def extractCategories (tags : Option (List FeedTag)) (category : CategoryField) :
    List String :=
  let cats := rawCategories tags category
  if cats.isEmpty then ["Cryptocurrency"] else cats

/-- C9: when tag/category extraction collects no categories the resulting
Item carries exactly the one default category, and for every raw entry the
category list is non-empty. -/
theorem categories_default_and_nonempty (tags : Option (List FeedTag))
    (category : CategoryField) :
    (rawCategories tags category = [] →
      extractCategories tags category = ["Cryptocurrency"]) ∧
    extractCategories tags category ≠ [] := by
  constructor
  · intro h
    simp [extractCategories, h]
  · unfold extractCategories
    by_cases h : (rawCategories tags category).isEmpty
    · simp [h]
    · simp only [h, if_false]
      simpa [List.isEmpty_iff] using h

/-- Witness for `categories_default_and_nonempty`: an entry whose `tags`
attribute is an empty list and whose `category` attribute is absent. -/
theorem categories_default_and_nonempty_witness :
    extractCategories (some []) CategoryField.absent = ["Cryptocurrency"] ∧
    extractCategories (some []) CategoryField.absent ≠ [] :=
  ⟨(categories_default_and_nonempty (some []) CategoryField.absent).1 rfl,
   (categories_default_and_nonempty (some []) CategoryField.absent).2⟩

/-- The methods the `RedisClient` class defines (src/src/redis_client.py):
`connect`, `close`, `store_article`, `get_recent_articles`, `clear_cache`. -/
def redisClientMethods : List String :=
  ["connect", "close", "store_article", "get_recent_articles", "clear_cache"]

/-- Python attribute lookup on a `RedisClient` instance: calling a method the
class does not define raises `AttributeError`. -/
def callRedisMethod (m : String) : Except String Unit :=
  if redisClientMethods.contains m then Except.ok ()
  else Except.error ("AttributeError: RedisClient has no member " ++ m)

/-- The Store interactions of `FeedPoller.process_feed` for one fetched entry
(src/src/feed_poller.py lines 234-259), with the attribute lookups explicit:
when the buffer is at capacity the code first calls
`self.redis_client.is_article_exists(article_link)`; an admitted entry is
then written with `self.redis_client.save_article(article_link, article)`.
No `try` surrounds these lines, so a raised `AttributeError` propagates out
of `process_feed` (and `poll_feeds` re-raises it, ending the polling loop).
`existsInStore` is the answer the existence check would give if it could be
made. -/
def processEntryStoreCalls (bufLen B : Nat) (existsInStore : Bool) :
    Except String Unit :=
  if B ≤ bufLen then
    match callRedisMethod ("is_article_exists") with
    | Except.error e => Except.error e
    | Except.ok _ =>
      if existsInStore then Except.ok ()
      else
        match callRedisMethod ("save_article") with
        | Except.error e => Except.error e
        | Except.ok u => Except.ok u
  else
    match callRedisMethod ("save_article") with
    | Except.error e => Except.error e
    | Except.ok u => Except.ok u

/-- C8: `RedisClient` defines neither `is_article_exists` nor `save_article`,
so for every entry the Scheduler processes, its first Store interaction
raises `AttributeError` and the error propagates out of `process_feed`
unhandled, instead of degrading to buffer-only operation. -/
theorem store_calls_raise_unhandled (bufLen B : Nat) (existsInStore : Bool) :
    processEntryStoreCalls bufLen B existsInStore
      = Except.error ("AttributeError: RedisClient has no member " ++
          (if B ≤ bufLen then "is_article_exists" else "save_article")) := by
  by_cases h : B ≤ bufLen <;>
    simp [processEntryStoreCalls, callRedisMethod, redisClientMethods, h]

/-- The single-quote character (the second `re.sub` of `_clean_content` uses
single-quoted alt values). -/
def squote : Char := Char.ofNat 39

/-- The double-quote character (the first `re.sub` of `_clean_content` uses
double-quoted alt values). -/
def dquote : Char := Char.ofNat 34

/-- The literal `<img` opening the pattern
`<img([^>]*?)alt=Q[^Q]*Q([^>]*?)>` of `_clean_content`
(src/src/feed_poller.py lines 215 and 217). -/
def imgLit : List Char := ['<', 'i', 'm', 'g']

/-- The literal `alt=` followed by the opening quote `q` in the same
pattern. -/
def altLit (q : Char) : List Char := ['a', 'l', 't', '=', q]

/-- Split a string at the first occurrence of `c`: `some (before, after)`
with `before` free of `c`; `none` when `c` does not occur.  This is how the
regex pieces `[^Q]*Q` (with `Q` the quote) and `([^>]*?)>` consume input:
the negated class cannot cross the closing character, so the match, when it
exists, ends exactly at its first occurrence. -/
def splitAtChar (c : Char) : List Char → Option (List Char × List Char)
  | [] => none
  | x :: xs =>
    if x = c then some ([], xs)
    else
      match splitAtChar c xs with
      | some p => some (x :: p.1, p.2)
      | none => none

/-- Match `[^q]*q([^>]*?)>` (the part of the `_clean_content` pattern after
`alt=q`): the alt value runs to the first closing quote, group 2 to the first
`>` after it; returns `some (group2, remainder)`. -/
def closeAfterAlt (q : Char) (s : List Char) : Option (List Char × List Char) :=
  match splitAtChar q s with
  | none => none
  | some p =>
    match splitAtChar '>' p.2 with
    | none => none
    | some p2 => some p2

/-- Match `([^>]*?)alt=q[^q]*q([^>]*?)>` (the `_clean_content` pattern after
`<img`): the lazy group 1 grows one character at a time — each candidate
position first tries the literal `alt=q` followed by `closeAfterAlt`, and on
failure the candidate character (which must not be `>`) is absorbed into
group 1, exactly the backtracking order of the regex engine.  Returns
`some (group1 ++ group2, remainder)`, the pieces of the replacement
`<img\1\2>`. -/
def altSearch (q : Char) : List Char → Option (List Char × List Char)
  | [] => none
  | ch :: t =>
    match (if (altLit q).isPrefixOf (ch :: t)
           then closeAfterAlt q ((ch :: t).drop (altLit q).length)
           else none) with
    | some p => some p
    | none =>
      if ch = '>' then none
      else
        match altSearch q t with
        | some p => some (ch :: p.1, p.2)
        | none => none

theorem splitAtChar_some_length {c : Char} :
    ∀ {s : List Char} {p : List Char × List Char},
      splitAtChar c s = some p → p.2.length < s.length := by
  intro s
  induction s with
  | nil => intro p h; cases h
  | cons x xs ih =>
    intro p h
    simp only [splitAtChar] at h
    by_cases hx : x = c
    · simp [hx] at h
      rw [← h]
      simp [Nat.lt_succ_self]
    · simp only [hx, if_false] at h
      cases h2 : splitAtChar c xs with
      | none => rw [h2] at h; cases h
      | some p2 =>
        rw [h2] at h
        simp at h
        have := ih h2
        rw [← h]
        show p2.2.length < xs.length + 1
        omega

theorem closeAfterAlt_some_length {q : Char} {s : List Char}
    {p : List Char × List Char} (h : closeAfterAlt q s = some p) :
    p.2.length < s.length := by
  simp only [closeAfterAlt] at h
  cases h1 : splitAtChar q s with
  | none => rw [h1] at h; cases h
  | some p1 =>
    rw [h1] at h
    dsimp only at h
    cases h2 : splitAtChar '>' p1.2 with
    | none => rw [h2] at h; cases h
    | some p2 =>
      rw [h2] at h
      simp at h
      have l1 := splitAtChar_some_length h1
      have l2 := splitAtChar_some_length h2
      rw [← h]
      omega

theorem altSearch_some_length {q : Char} :
    ∀ {s : List Char} {p : List Char × List Char},
      altSearch q s = some p → p.2.length < s.length := by
  intro s
  induction s with
  | nil => intro p h; cases h
  | cons ch t ih =>
    intro p h
    simp only [altSearch] at h
    cases h1 : (if (altLit q).isPrefixOf (ch :: t)
        then closeAfterAlt q ((ch :: t).drop (altLit q).length)
        else none) with
    | some p1 =>
      rw [h1] at h
      simp at h
      by_cases hpre : (altLit q).isPrefixOf (ch :: t)
      · rw [if_pos hpre] at h1
        have := closeAfterAlt_some_length h1
        rw [← h]
        simp only [List.length_drop] at this
        simp only [List.length_cons] at this ⊢
        omega
      · rw [if_neg hpre] at h1
        cases h1
    | none =>
      rw [h1] at h
      by_cases hgt : ch = '>'
      · simp [hgt] at h
      · simp only [hgt, if_false] at h
        cases h2 : altSearch q t with
        | none => rw [h2] at h; cases h
        | some p2 =>
          rw [h2] at h
          simp at h
          have := ih h2
          rw [← h]
          simp only [List.length_cons]
          omega

/-- One `re.sub` pass of `_clean_content` with quote character `q`
(src/src/feed_poller.py lines 215 and 217): scan left to right; at each
position where the literal `<img` matches, attempt the rest of the pattern;
on a match emit the replacement `<img\1\2>` (the alt attribute dropped) and
continue after the match, otherwise emit the character and move one position
right — the leftmost-first, non-overlapping behavior of `re.sub`. -/
def subImgAlt (q : Char) (s : List Char) : List Char :=
  match s with
  | [] => []
  | ch :: t =>
    if imgLit.isPrefixOf (ch :: t) then
      match h : altSearch q ((ch :: t).drop imgLit.length) with
      | some p => imgLit ++ p.1 ++ ['>'] ++ subImgAlt q p.2
      | none => ch :: subImgAlt q t
    else ch :: subImgAlt q t
termination_by s.length
decreasing_by
  · have := altSearch_some_length h
    simp only [List.length_drop, List.length_cons, imgLit, List.length_nil] at this ⊢
    omega
  · simp only [List.length_cons]
    omega
  · simp only [List.length_cons]
    omega

/-- `_clean_content` (src/src/feed_poller.py lines 211-221): the
double-quote substitution followed by the single-quote substitution on its
result.  The `except` branch returning the original text is unreachable,
because `re.sub` with these fixed, valid patterns raises for no input
string; the embedding is accordingly a total function. -/
def cleanContent (s : List Char) : List Char :=
  subImgAlt squote (subImgAlt dquote s)

/-- `pat` occurs as a contiguous substring of the second argument. -/
def hasSub (pat : List Char) : List Char → Bool
  | [] => pat.isEmpty
  | ch :: t => pat.isPrefixOf (ch :: t) || hasSub pat t

theorem subImgAlt_cons_noimg {q ch : Char} {t : List Char}
    (h : imgLit.isPrefixOf (ch :: t) = false) :
    subImgAlt q (ch :: t) = ch :: subImgAlt q t := by
  rw [subImgAlt]
  simp [h]

theorem subImgAlt_id_of_no_img (q : Char) :
    ∀ (s : List Char), hasSub imgLit s = false → subImgAlt q s = s := by
  intro s
  induction s with
  | nil => intro _; rw [subImgAlt]
  | cons ch t ih =>
    intro h
    simp only [hasSub, Bool.or_eq_false_iff] at h
    rw [subImgAlt_cons_noimg h.1, ih h.2]

theorem altSearch_some_mem_q {q : Char} :
    ∀ {s : List Char} {p : List Char × List Char},
      altSearch q s = some p → q ∈ s := by
  intro s
  induction s with
  | nil => intro p h; cases h
  | cons ch t ih =>
    intro p h
    simp only [altSearch] at h
    by_cases hpre : (altLit q).isPrefixOf (ch :: t)
    · have hpre2 : altLit q <+: ch :: t := List.isPrefixOf_iff_prefix.mp hpre
      exact List.IsPrefix.mem (by simp [altLit]) hpre2
    · rw [if_neg hpre] at h
      simp only [] at h
      by_cases hgt : ch = '>'
      · simp [hgt] at h
      · simp only [hgt, if_false] at h
        cases h2 : altSearch q t with
        | none => rw [h2] at h; cases h
        | some p2 => exact List.mem_cons_of_mem ch (ih h2)

theorem subImgAlt_id_of_no_q (q : Char) :
    ∀ (s : List Char), (∀ c ∈ s, c ≠ q) → subImgAlt q s = s := by
  intro s
  induction s with
  | nil => intro _; rw [subImgAlt]
  | cons ch t ih =>
    intro h
    have iht := ih (fun c hc => h c (List.mem_cons_of_mem ch hc))
    by_cases hpre : imgLit.isPrefixOf (ch :: t)
    · rw [subImgAlt]
      simp only [hpre, if_true]
      split
      next p heq =>
        exfalso
        exact h q (List.mem_of_mem_drop (altSearch_some_mem_q heq)) rfl
      next heq =>
        rw [iht]
    · rw [subImgAlt_cons_noimg (Bool.eq_false_iff.mpr hpre), iht]

theorem splitAtChar_append {c : Char} :
    ∀ (v r : List Char), (∀ x ∈ v, x ≠ c) →
      splitAtChar c (v ++ c :: r) = some (v, r) := by
  intro v
  induction v with
  | nil => intro r _; simp [splitAtChar]
  | cons x xs ih =>
    intro r h
    have hx : x ≠ c := h x (List.mem_cons_self x xs)
    simp only [List.cons_append, splitAtChar, hx, if_false, List.append_eq]
    rw [ih r (fun y hy => h y (List.mem_cons_of_mem x hy))]

theorem closeAfterAlt_eq {q : Char} (v g2 post : List Char)
    (hv : ∀ x ∈ v, x ≠ q) (hg2 : ∀ x ∈ g2, x ≠ '>') :
    closeAfterAlt q (v ++ q :: (g2 ++ '>' :: post)) = some (g2, post) := by
  unfold closeAfterAlt
  rw [splitAtChar_append v _ hv]
  dsimp only
  rw [splitAtChar_append g2 post hg2]

theorem altLit_isPrefixOf_false {q ch : Char} {t : List Char} (h : ch ≠ 'a') :
    (altLit q).isPrefixOf (ch :: t) = false := by
  simp only [altLit, List.isPrefixOf, Bool.and_eq_false_iff]
  left
  simp [beq_iff_eq]
  intro h2
  exact h h2.symm

theorem imgLit_isPrefixOf_false {ch : Char} {t : List Char} (h : ch ≠ '<') :
    imgLit.isPrefixOf (ch :: t) = false := by
  simp only [imgLit, List.isPrefixOf, Bool.and_eq_false_iff]
  left
  simp [beq_iff_eq]
  intro h2
  exact h h2.symm

theorem altSearch_found {q : Char} {s : List Char} {p : List Char × List Char}
    (hpre : (altLit q).isPrefixOf s = true)
    (hclose : closeAfterAlt q (s.drop (altLit q).length) = some p) :
    altSearch q s = some p := by
  cases s with
  | nil => simp [altLit, List.isPrefixOf] at hpre
  | cons ch t => simp [altSearch, hpre, hclose]

theorem altSearch_cons_skip {q ch : Char} {t : List Char}
    {p : List Char × List Char}
    (hpre : (altLit q).isPrefixOf (ch :: t) = false) (hgt : ch ≠ '>')
    (h : altSearch q t = some p) :
    altSearch q (ch :: t) = some (ch :: p.1, p.2) := by
  simp [altSearch, hpre, hgt, h]

theorem altSearch_eq (q : Char) :
    ∀ (g1 v g2 post : List Char),
      (∀ x ∈ g1, x ≠ 'a') → (∀ x ∈ g1, x ≠ '>') →
      (∀ x ∈ v, x ≠ q) → (∀ x ∈ g2, x ≠ '>') →
      altSearch q (g1 ++ altLit q ++ v ++ [q] ++ g2 ++ ['>'] ++ post)
        = some (g1 ++ g2, post) := by
  intro g1
  induction g1 with
  | nil =>
    intro v g2 post _ _ hv hg2
    simp only [List.nil_append]
    apply altSearch_found
    · rw [List.isPrefixOf_iff_prefix]
      simp only [List.append_assoc]
      exact List.prefix_append _ _
    · have hd : (altLit q ++ (v ++ ([q] ++ (g2 ++ (['>'] ++ post))))).drop
          (altLit q).length = v ++ ([q] ++ (g2 ++ (['>'] ++ post))) :=
        List.drop_left _ _
      simp only [List.append_assoc]
      rw [hd]
      have : v ++ ([q] ++ (g2 ++ (['>'] ++ post)))
          = v ++ q :: (g2 ++ '>' :: post) := by simp
      rw [this]
      exact closeAfterAlt_eq v g2 post hv hg2
  | cons ch g1t ih =>
    intro v g2 post ha hgt hv hg2
    have hch_a : ch ≠ 'a' := ha ch (List.mem_cons_self _ _)
    have hch_gt : ch ≠ '>' := hgt ch (List.mem_cons_self _ _)
    have ih2 := ih v g2 post (fun x hx => ha x (List.mem_cons_of_mem _ hx))
      (fun x hx => hgt x (List.mem_cons_of_mem _ hx)) hv hg2
    simp only [List.cons_append]
    rw [altSearch_cons_skip (altLit_isPrefixOf_false hch_a) hch_gt ih2]

theorem subImgAlt_pre (q : Char) :
    ∀ (pre R : List Char), (∀ c ∈ pre, c ≠ '<') →
      subImgAlt q (pre ++ R) = pre ++ subImgAlt q R := by
  intro pre
  induction pre with
  | nil => intro R _; simp
  | cons ch t ih =>
    intro R h
    have hch : ch ≠ '<' := h ch (List.mem_cons_self _ _)
    simp only [List.cons_append]
    rw [subImgAlt_cons_noimg (imgLit_isPrefixOf_false hch),
      ih R (fun c hc => h c (List.mem_cons_of_mem _ hc))]

theorem subImgAlt_img {q : Char} {s : List Char} {p : List Char × List Char}
    (h : altSearch q s = some p) :
    subImgAlt q (imgLit ++ s) = imgLit ++ p.1 ++ ['>'] ++ subImgAlt q p.2 := by
  have hsh : imgLit ++ s = '<' :: ('i' :: 'm' :: 'g' :: s) := by simp [imgLit]
  rw [hsh, subImgAlt]
  have hpre2 : imgLit.isPrefixOf ('<' :: 'i' :: 'm' :: 'g' :: s) = true := by
    simp [imgLit, List.isPrefixOf]
  simp only [hpre2, if_true]
  have hdrop2 : ('<' :: 'i' :: 'm' :: 'g' :: s).drop imgLit.length = s := by
    simp [imgLit]
  split
  next p2 heq =>
    rw [hdrop2, h] at heq
    injection heq with heq2
    rw [heq2]
  next heq =>
    rw [hdrop2, h] at heq
    cases heq

/-- C10: the body-cleaning function is total (the embedding is a total
function; `re.sub` with the fixed valid patterns of `_clean_content` raises
for no input, making the `except` fallback unreachable), it removes the
double-quoted alt attribute of an img tag while preserving the surrounding
text and the remaining attributes, and it leaves any string with no `<img`
occurrence unchanged.  The decomposition hypotheses describe one img tag
with an alt attribute: `pre` text before the tag (no `<`), `g1` the
attributes before `alt` (no `a`, no `>`), `v` the alt value (no closing
quote), `g2` the attributes after (no `>`), `post` the rest of the document
(no further `<img`); apostrophe-free parts keep the second, single-quote
substitution pass from firing. -/
theorem clean_content_removes_alt_else_id
    (pre g1 v g2 post s : List Char)
    (hpre : ∀ c ∈ pre, c ≠ '<')
    (hg1a : ∀ c ∈ g1, c ≠ 'a')
    (hg1gt : ∀ c ∈ g1, c ≠ '>')
    (hv : ∀ c ∈ v, c ≠ dquote)
    (hg2gt : ∀ c ∈ g2, c ≠ '>')
    (hpost : hasSub imgLit post = false)
    (hpreq : ∀ c ∈ pre, c ≠ squote)
    (hg1q : ∀ c ∈ g1, c ≠ squote)
    (hg2q : ∀ c ∈ g2, c ≠ squote)
    (hpostq : ∀ c ∈ post, c ≠ squote)
    (hs : hasSub imgLit s = false) :
    cleanContent (pre ++ imgLit ++ g1 ++ altLit dquote ++ v ++ [dquote] ++ g2
        ++ ['>'] ++ post)
      = pre ++ imgLit ++ g1 ++ g2 ++ ['>'] ++ post ∧
    cleanContent s = s := by
  constructor
  · unfold cleanContent
    have hsearch := altSearch_eq dquote g1 v g2 post hg1a hg1gt hv hg2gt
    have hshape : pre ++ imgLit ++ g1 ++ altLit dquote ++ v ++ [dquote] ++ g2
          ++ ['>'] ++ post
        = pre ++ (imgLit ++ (g1 ++ altLit dquote ++ v ++ [dquote] ++ g2
          ++ ['>'] ++ post)) := by
      simp [List.append_assoc]
    rw [hshape, subImgAlt_pre dquote pre _ hpre, subImgAlt_img hsearch,
      subImgAlt_id_of_no_img dquote post hpost]
    have hq2 : ∀ c ∈ pre ++ (imgLit ++ (g1 ++ g2) ++ ['>'] ++ post),
        c ≠ squote := by
      intro c hc
      simp only [List.mem_append] at hc
      rcases hc with h1 | (((h2 | h3) | h4) | h5)
      · exact hpreq c h1
      · simp only [imgLit, List.mem_cons, List.not_mem_nil, or_false] at h2
        rcases h2 with rfl | rfl | rfl | rfl <;> decide
      · rcases h3 with hg | hg
        · exact hg1q c hg
        · exact hg2q c hg
      · simp only [List.mem_singleton] at h4
        rw [h4]
        decide
      · exact hpostq c h5
    rw [subImgAlt_id_of_no_q squote _ hq2]
    simp [List.append_assoc]
  · unfold cleanContent
    rw [subImgAlt_id_of_no_img dquote s hs, subImgAlt_id_of_no_img squote s hs]

/-- Witness for `clean_content_removes_alt_else_id`: cleaning
`P <img src="x" alt="hi"><b>` removes exactly the alt attribute, and the
img-free string `y<b>` is left unchanged. -/
theorem clean_content_removes_alt_else_id_witness :
    cleanContent (['P', ' '] ++ imgLit ++
        [' ', 's', 'r', 'c', '=', dquote, 'x', dquote, ' '] ++ altLit dquote ++
        ['h', 'i'] ++ [dquote] ++ [] ++ ['>'] ++ ['<', 'b', '>'])
      = ['P', ' '] ++ imgLit ++
        [' ', 's', 'r', 'c', '=', dquote, 'x', dquote, ' '] ++ [] ++ ['>'] ++
        ['<', 'b', '>'] ∧
    cleanContent ['y', '<', 'b', '>'] = ['y', '<', 'b', '>'] :=
  clean_content_removes_alt_else_id ['P', ' ']
    [' ', 's', 'r', 'c', '=', dquote, 'x', dquote, ' '] ['h', 'i'] []
    ['<', 'b', '>'] ['y', '<', 'b', '>']
    (by decide) (by decide) (by decide) (by decide) (by decide) (by decide)
    (by decide) (by decide) (by decide) (by decide) (by decide)

end FeedService
